import Mathlib

/-!
Verification of the snuba query-serving core: the logical query model
(`snuba/query/logical.py`), and the adaptive split-execution / partition
subdivision behaviour pinned down by `tests/test_split.py` and
`tests/test_optimize.py`.

Python sets are modelled as `Finset`, Python `None` as `Option`, in-place
mutation of the `Query` object as functions `Query → Query`, and the
`assert` failures of the accessors as `Except` with the error kinds named
in the design document (`UnboundDataSource`, `InvariantViolation`).
-/

/-- Error kinds of the query model: `unboundDataSource` models the
assertion failure of `Query.get_data_source` when the data source has not
been provided yet; `invariantViolation` models the assertion failures of
`Query.set_entity` / `Query.get_entity`. -/
inductive SnubaError where
  | unboundDataSource
  | invariantViolation
  deriving DecidableEq

/-- Modelled from the spec: the entity reference bound to a logical query.
`snuba/query/data_source/simple.py` is not part of the sources; the query
code only stores and returns the value, so it is an opaque name. -/
structure Entity where
  name : String
  deriving DecidableEq

/-- Modelled from the spec: the data-source collaborator
(`snuba/datasets/schemas.py` is not part of the sources). Per the external
interface section it "exposes get_columns() -> set of declared column
names"; `validate_aliases` consumes the flattened names, so the model
carries the flattened column-name set directly. -/
structure RelationalSource where
  columns : Finset String
  deriving DecidableEq

/-- Modelled from the spec: the expression tree
(`snuba/query/expressions.py` is not part of the sources). Variants follow
the data-model section: `Column{table?, name, alias?}`, `Literal{value}`,
`FunctionCall{name, args, alias?}`, `SubscriptReference{column, key,
alias?}`, `Lambda`. -/
inductive Expression where
  | column (columnAlias : Option String) (tableName : Option String)
      (columnName : String)
  | literal (value : Int)
  | functionCall (functionAlias : Option String) (functionName : String)
      (parameters : List Expression)
  | subscriptableReference (subscriptAlias : Option String)
      (column : Expression) (key : Expression)
  | lambdaExp (parameters : List String) (transformation : Expression)

mutual
/-- Structural decidable equality for expressions (the automatic derivation
does not handle the nested `List Expression` argument). -/
def exprDecEq : (a b : Expression) → Decidable (a = b)
  | .column a1 t1 n1, .column a2 t2 n2 =>
      if h : a1 = a2 ∧ t1 = t2 ∧ n1 = n2 then
        isTrue (by obtain ⟨h1, h2, h3⟩ := h; subst h1; subst h2; subst h3; rfl)
      else
        isFalse (by intro he; injection he with h1 h2 h3; exact h ⟨h1, h2, h3⟩)
  | .literal v1, .literal v2 =>
      if h : v1 = v2 then isTrue (by subst h; rfl)
      else isFalse (by intro he; injection he with h1; exact h h1)
  | .functionCall a1 n1 p1, .functionCall a2 n2 p2 =>
      match exprListDecEq p1 p2 with
      | isTrue hp =>
          if h : a1 = a2 ∧ n1 = n2 then
            isTrue (by obtain ⟨h1, h2⟩ := h; subst h1; subst h2; subst hp; rfl)
          else
            isFalse (by intro he; injection he with h1 h2 _; exact h ⟨h1, h2⟩)
      | isFalse hp => isFalse (by intro he; injection he with _ _ h3; exact hp h3)
  | .subscriptableReference a1 c1 k1, .subscriptableReference a2 c2 k2 =>
      match exprDecEq c1 c2, exprDecEq k1 k2 with
      | isTrue hc, isTrue hk =>
          if h : a1 = a2 then
            isTrue (by subst h; subst hc; subst hk; rfl)
          else isFalse (by intro he; injection he with h1 _ _; exact h h1)
      | isFalse hc, _ => isFalse (by intro he; injection he with _ h2 _; exact hc h2)
      | _, isFalse hk => isFalse (by intro he; injection he with _ _ h3; exact hk h3)
  | .lambdaExp p1 b1, .lambdaExp p2 b2 =>
      match exprDecEq b1 b2 with
      | isTrue hb =>
          if h : p1 = p2 then isTrue (by subst h; subst hb; rfl)
          else isFalse (by intro he; injection he with h1 _; exact h h1)
      | isFalse hb => isFalse (by intro he; injection he with _ h2; exact hb h2)
  | .column _ _ _, .literal _ => isFalse (fun h => Expression.noConfusion h)
  | .column _ _ _, .functionCall _ _ _ => isFalse (fun h => Expression.noConfusion h)
  | .column _ _ _, .subscriptableReference _ _ _ => isFalse (fun h => Expression.noConfusion h)
  | .column _ _ _, .lambdaExp _ _ => isFalse (fun h => Expression.noConfusion h)
  | .literal _, .column _ _ _ => isFalse (fun h => Expression.noConfusion h)
  | .literal _, .functionCall _ _ _ => isFalse (fun h => Expression.noConfusion h)
  | .literal _, .subscriptableReference _ _ _ => isFalse (fun h => Expression.noConfusion h)
  | .literal _, .lambdaExp _ _ => isFalse (fun h => Expression.noConfusion h)
  | .functionCall _ _ _, .column _ _ _ => isFalse (fun h => Expression.noConfusion h)
  | .functionCall _ _ _, .literal _ => isFalse (fun h => Expression.noConfusion h)
  | .functionCall _ _ _, .subscriptableReference _ _ _ => isFalse (fun h => Expression.noConfusion h)
  | .functionCall _ _ _, .lambdaExp _ _ => isFalse (fun h => Expression.noConfusion h)
  | .subscriptableReference _ _ _, .column _ _ _ => isFalse (fun h => Expression.noConfusion h)
  | .subscriptableReference _ _ _, .literal _ => isFalse (fun h => Expression.noConfusion h)
  | .subscriptableReference _ _ _, .functionCall _ _ _ => isFalse (fun h => Expression.noConfusion h)
  | .subscriptableReference _ _ _, .lambdaExp _ _ => isFalse (fun h => Expression.noConfusion h)
  | .lambdaExp _ _, .column _ _ _ => isFalse (fun h => Expression.noConfusion h)
  | .lambdaExp _ _, .literal _ => isFalse (fun h => Expression.noConfusion h)
  | .lambdaExp _ _, .functionCall _ _ _ => isFalse (fun h => Expression.noConfusion h)
  | .lambdaExp _ _, .subscriptableReference _ _ _ => isFalse (fun h => Expression.noConfusion h)

/-- Decidable equality for lists of expressions. -/
def exprListDecEq : (a b : List Expression) → Decidable (a = b)
  | [], [] => isTrue rfl
  | [], _ :: _ => isFalse (fun h => List.noConfusion h)
  | _ :: _, [] => isFalse (fun h => List.noConfusion h)
  | x :: xs, y :: ys =>
      match exprDecEq x y, exprListDecEq xs ys with
      | isTrue h1, isTrue h2 => isTrue (by rw [h1, h2])
      | isFalse h1, _ => isFalse (by intro he; injection he with he1 _; exact h1 he1)
      | _, isFalse h2 => isFalse (by intro he; injection he with _ he2; exact h2 he2)
end

instance : DecidableEq Expression := exprDecEq

namespace Expression

/-- The `alias` attribute of an expression node (spec: `Literal` and
`Lambda` carry no alias). -/
def getAlias : Expression → Option String
  | .column a _ _ => a
  | .literal _ => none
  | .functionCall a _ _ => a
  | .subscriptableReference a _ _ => a
  | .lambdaExp _ _ => none

/-- Whether the node is a `Column` (`isinstance(e, Column)`). -/
def isColumn : Expression → Bool
  | .column _ _ _ => true
  | _ => false

/-- Whether the node is a `SubscriptableReference`. -/
def isSubscript : Expression → Bool
  | .subscriptableReference _ _ _ => true
  | _ => false

mutual
/-- Modelled from the spec: the depth-first iteration protocol of an
expression — the node itself followed by the depth-first sequences of each
child, in declared argument order. -/
def iterate : Expression → List Expression
  | e@(.column _ _ _) => [e]
  | e@(.literal _) => [e]
  | e@(.functionCall _ _ args) => e :: iterateList args
  | e@(.subscriptableReference _ c k) => e :: (iterate c ++ iterate k)
  | e@(.lambdaExp _ body) => e :: iterate body

/-- Depth-first iteration of a list of children, in order. -/
def iterateList : List Expression → List Expression
  | [] => []
  | x :: xs => iterate x ++ iterateList xs
end

mutual
/-- Modelled from the spec: `transform(f)` rebuilds the tree bottom-up —
children are transformed first, a new node is built from the transformed
children, then `f` is applied to that new node; the receiver is never
mutated. -/
def transform (f : Expression → Expression) : Expression → Expression
  | .column a t n => f (.column a t n)
  | .literal v => f (.literal v)
  | .functionCall a n args => f (.functionCall a n (transformList f args))
  | .subscriptableReference a c k =>
      f (.subscriptableReference a (transform f c) (transform f k))
  | .lambdaExp ps body => f (.lambdaExp ps (transform f body))

/-- Bottom-up transformation of a list of children, in order. -/
def transformList (f : Expression → Expression) :
    List Expression → List Expression
  | [] => []
  | x :: xs => transform f x :: transformList f xs
end

end Expression

/-- Python truthiness of an optional string: `None` and the empty string
are falsy (`if e.alias:` and `if not e.table_name:` in
`validate_aliases`). -/
def optTruthy : Option String → Bool
  | none => false
  | some s => !s.isEmpty

/-- `OrderByDirection` of `snuba/query/logical.py`. -/
inductive OrderByDirection where
  | asc
  | desc
  deriving DecidableEq

/-- `OrderBy` of `snuba/query/logical.py`. -/
structure OrderBy where
  direction : OrderByDirection
  expression : Expression
  deriving DecidableEq

/-- `SelectedExpression` of `snuba/query/logical.py`: the name of the
column in the resultset paired with the expression producing it. -/
structure SelectedExpression where
  name : Option String
  expression : Expression
  deriving DecidableEq

/-- `Limitby = Tuple[int, str]` of `snuba/query/logical.py`. -/
def Limitby := Nat × String
deriving instance DecidableEq for Limitby

/-- The `Query` class of `snuba/query/logical.py`: one field per private
attribute set by `__init__`. The legacy `body` mapping is kept as an
association list; it only backs the deprecated `get_body`. -/
structure Query where
  body : List (String × String)
  final : Bool
  dataSource : Option RelationalSource
  selectedColumns : List SelectedExpression
  arrayJoin : Option Expression
  condition : Option Expression
  prewhere : Option Expression
  groupby : List Expression
  having : Option Expression
  orderBy : List OrderBy
  entity : Option Entity
  limitby : Option Limitby
  sample : Option Float
  limit : Option Nat
  offset : Nat
  totals : Bool
  granularity : Option Nat

/-- `Query.__init__`: `selected_columns or []`, `groupby or []` and
`order_by or []` default to empty, `final` is initialised to `False`. -/
def mkQuery (body : List (String × String))
    (data_source : Option RelationalSource)
    (selected_columns : Option (List SelectedExpression) := none)
    (array_join : Option Expression := none)
    (condition : Option Expression := none)
    (prewhere : Option Expression := none)
    (groupby : Option (List Expression) := none)
    (having : Option Expression := none)
    (order_by : Option (List OrderBy) := none)
    (entity : Option Entity := none)
    (limitby : Option Limitby := none)
    (sample : Option Float := none)
    (limit : Option Nat := none)
    (offset : Nat := 0)
    (totals : Bool := false)
    (granularity : Option Nat := none) : Query :=
  { body := body
    final := false
    dataSource := data_source
    selectedColumns := selected_columns.getD []
    arrayJoin := array_join
    condition := condition
    prewhere := prewhere
    groupby := groupby.getD []
    having := having
    orderBy := order_by.getD []
    entity := entity
    limitby := limitby
    sample := sample
    limit := limit
    offset := offset
    totals := totals
    granularity := granularity }

namespace Query

/-- Iteration of an optional expression: `self.__array_join or []` chains
the expression's own depth-first iterator, or nothing. -/
def optIterate : Option Expression → List Expression
  | none => []
  | some e => e.iterate

/-- `Query.get_all_expressions`: chains the iterators of the selected
expressions, the array join, the condition, the group-by expressions, the
having clause and the order-by expressions, in that order. `prewhere` is
not part of the chain. -/
def get_all_expressions (q : Query) : List Expression :=
  (q.selectedColumns.map (fun s => s.expression)).flatMap Expression.iterate
    ++ optIterate q.arrayJoin
    ++ optIterate q.condition
    ++ q.groupby.flatMap Expression.iterate
    ++ optIterate q.having
    ++ (q.orderBy.map (fun o => o.expression)).flatMap Expression.iterate

/-- `Query.transform_expressions`: rewrites, in place, the selected
columns, the array join, the condition, the group-by list, the having
clause and the order-by list through `Expression.transform func`.
`prewhere` is not rewritten by this method. -/
def transform_expressions (q : Query) (func : Expression → Expression) :
    Query :=
  { q with
    selectedColumns := q.selectedColumns.map
      (fun s => { s with expression := s.expression.transform func })
    arrayJoin := q.arrayJoin.map (fun e => e.transform func)
    condition := q.condition.map (fun e => e.transform func)
    groupby := q.groupby.map (fun e => e.transform func)
    having := q.having.map (fun e => e.transform func)
    orderBy := q.orderBy.map
      (fun o => { o with expression := o.expression.transform func }) }

/-- `Query.get_data_source`: asserts that the data source has been
provided. -/
def get_data_source (q : Query) : Except SnubaError RelationalSource :=
  match q.dataSource with
  | none => .error .unboundDataSource
  | some ds => .ok ds

/-- `Query.set_data_source`. -/
def set_data_source (q : Query) (ds : RelationalSource) : Query :=
  { q with dataSource := some ds }

/-- `Query.set_entity`: asserts that no entity is bound yet. -/
def set_entity (q : Query) (e : Entity) : Except SnubaError Query :=
  match q.entity with
  | some _ => .error .invariantViolation
  | none => .ok { q with entity := some e }

/-- `Query.get_entity`: asserts that an entity is bound. -/
def get_entity (q : Query) : Except SnubaError Entity :=
  match q.entity with
  | none => .error .invariantViolation
  | some e => .ok e

/-- The qualified column name computed inside `validate_aliases`:
`e.column_name if not e.table_name else f"{e.table_name}.{e.column_name}"`
(an empty table name, like `None`, is falsy in Python). -/
def qualifiedColName (tableName : Option String) (columnName : String) :
    String :=
  match tableName with
  | none => columnName
  | some t => if t.isEmpty then columnName else t ++ "." ++ columnName

/-- One iteration of the loop body of `validate_aliases`: folds a single
expression into the pair (declared symbols, referenced symbols).

`SELECT f(g(x)) as A -> declared_symbols = {A}`;
`SELECT a as B -> declared_symbols = {B} referenced_symbols = {a}`;
`SELECT a AS a -> referenced_symbols = {a}`. -/
def processSymbols (acc : Finset String × Finset String) (e : Expression) :
    Finset String × Finset String :=
  let (declared, referenced) := acc
  if optTruthy e.getAlias then
    match e with
    | .column a t n =>
        let qualified := qualifiedColName t n
        if a.getD "" ≠ qualified then
          (insert (a.getD "") declared, insert qualified referenced)
        else
          (declared, insert qualified referenced)
    | _ => (insert (e.getAlias.getD "") declared, referenced)
  else
    match e with
    | .column _ t n => if optTruthy t then acc else (declared, insert n referenced)
    | _ => acc

/-- The declared-symbols set accumulated by the loop of
`validate_aliases` (before the data-source columns are added). -/
def declaredSymbols (q : Query) : Finset String :=
  (q.get_all_expressions.foldl processSymbols (∅, ∅)).1

/-- The referenced-symbols set accumulated by the loop of
`validate_aliases`. -/
def referencedSymbols (q : Query) : Finset String :=
  (q.get_all_expressions.foldl processSymbols (∅, ∅)).2

/-- `Query.validate_aliases`: loops over `get_all_expressions()`, adds the
flattened data-source column names to the declared symbols, and returns
`not referenced_symbols - declared_symbols`. Requires the data source to
be bound (`get_data_source` asserts). -/
def validate_aliases (q : Query) : Except SnubaError Bool := do
  let ds ← q.get_data_source
  let acc := q.get_all_expressions.foldl processSymbols (∅, ∅)
  pure (acc.2 \ (acc.1 ∪ ds.columns) = ∅)

/-- `Query.__get_all_ast_referenced_expressions`: iterates each expression
of the input again and accumulates the sub-expressions satisfying the
type test into a set. -/
def get_all_ast_referenced_expressions (expressions : List Expression)
    (p : Expression → Bool) : Finset Expression :=
  expressions.foldl
    (fun ret e => ret ∪ (e.iterate.filter p).toFinset) ∅

/-- `Query.get_all_ast_referenced_columns`. -/
def get_all_ast_referenced_columns (q : Query) : Finset Expression :=
  get_all_ast_referenced_expressions q.get_all_expressions
    Expression.isColumn

/-- `Query.get_all_ast_referenced_subscripts`. -/
def get_all_ast_referenced_subscripts (q : Query) : Finset Expression :=
  get_all_ast_referenced_expressions q.get_all_expressions
    Expression.isSubscript

/-- `Query.get_prewhere_ast`. -/
def get_prewhere_ast (q : Query) : Option Expression := q.prewhere

/-- `Query.get_condition_from_ast`. -/
def get_condition_from_ast (q : Query) : Option Expression := q.condition

/-- `Query.get_selected_columns_from_ast`. -/
def get_selected_columns_from_ast (q : Query) : List SelectedExpression :=
  q.selectedColumns

/-- `Query.get_groupby_from_ast`. -/
def get_groupby_from_ast (q : Query) : List Expression := q.groupby

/-- `Query.get_having_from_ast`. -/
def get_having_from_ast (q : Query) : Option Expression := q.having

/-- `Query.get_arrayjoin_from_ast`. -/
def get_arrayjoin_from_ast (q : Query) : Option Expression := q.arrayJoin

/-- `Query.get_orderby_from_ast`. -/
def get_orderby_from_ast (q : Query) : List OrderBy := q.orderBy

/-- `Query.get_limitby`. -/
def get_limitby (q : Query) : Option Limitby := q.limitby

/-- `Query.get_sample`. -/
def get_sample (q : Query) : Option Float := q.sample

/-- `Query.get_limit`. -/
def get_limit (q : Query) : Option Nat := q.limit

/-- `Query.get_offset`. -/
def get_offset (q : Query) : Nat := q.offset

/-- `Query.has_totals`. -/
def has_totals (q : Query) : Bool := q.totals

/-- `Query.get_final`. -/
def get_final (q : Query) : Bool := q.final

/-- `Query.get_granularity`. -/
def get_granularity (q : Query) : Option Nat := q.granularity

end Query

/-- Comparison operator of a top-level condition clause, as in the legacy
condition triples `(column, operator, literal)` used by
`tests/test_split.py`. -/
inductive CondOp where
  | eq
  | neq
  | gt
  | lt
  | gte
  | lte
  | isIn
  deriving DecidableEq

/-- Modelled from the spec: the physical-query shape consumed by the split
strategies (`snuba/web/split.py` is not part of the sources; the spec
assumes the physical query "exposes the same select/condition/order/limit
accessors as LogicalQuery"). Conditions are the top-level AND-ed clauses
`(column, operator, values)`; scalar comparisons carry a singleton value
list. -/
structure SplitQuery where
  selected_columns : List String
  conditions : List (String × CondOp × List String)
  groupby : List String
  order_by : List String
  limitby : Option (Nat × String)
  limit : Option Nat
  deriving DecidableEq

/-- A result row: mapping from column name to value. -/
abbrev ResultRow := List (String × String)

/-- A result set: the rows returned by the runner callback. -/
abbrev ResultSet := List ResultRow

/-- `ColumnSplitQueryStrategy(id_column, project_column,
timestamp_column)`, plus the configured minimum number of selected
columns that the spec's first applicability precondition refers to. -/
structure ColumnSplitQueryStrategy where
  id_column : String
  project_column : String
  timestamp_column : String
  min_columns : Nat

namespace ColumnSplitQueryStrategy

/-- Modelled from the spec: `ColumnSplitQueryStrategy.execute`
(`snuba/web/split.py` is not part of the sources). Declines (`none`)
unless the query selects more than the configured minimum number of
columns, the select list contains the identifier and project-scoping
columns, the top-level condition has no `=`/`IN` comparison against the
identifier column, and no GROUP BY is present. Otherwise it runs a first
query whose select list is reduced to the identifier, project and time
columns plus the ORDER BY / LIMIT BY expressions; on zero rows it returns
an empty result set, else it re-runs the original select list restricted
by compound membership conditions on the returned identifier and project
values. -/
def execute (s : ColumnSplitQueryStrategy) (q : SplitQuery)
    (runner : SplitQuery → ResultSet) : Option ResultSet :=
  if !(s.min_columns < q.selected_columns.length) then none
  else if !(s.id_column ∈ q.selected_columns
      && s.project_column ∈ q.selected_columns) then none
  else if q.conditions.any (fun c =>
      c.1 == s.id_column && (c.2.1 == CondOp.eq || c.2.1 == CondOp.isIn))
    then none
  else if !q.groupby.isEmpty then none
  else
    let firstQuery : SplitQuery :=
      { q with
        selected_columns :=
          ([s.id_column, s.project_column, s.timestamp_column]
            ++ q.order_by
            ++ ((q.limitby.map (fun l => [l.2])).getD [])).dedup }
    let rows := runner firstQuery
    if rows.isEmpty then some []
    else
      let ids := rows.filterMap (fun r =>
        List.lookup s.id_column r)
      let projects := rows.filterMap (fun r =>
        List.lookup s.project_column r)
      let secondQuery : SplitQuery :=
        { q with
          conditions := q.conditions
            ++ [(s.id_column, CondOp.isIn, ids),
                (s.project_column, CondOp.isIn, projects)] }
      some (runner secondQuery)

end ColumnSplitQueryStrategy

/-- Modelled from the spec: the window loop of `TimeSplitQueryStrategy`
(`snuba/web/split.py` is not part of the sources) for a run in which every
window stays under the row limit, so the strategy walks the whole
interval. Times are minutes on a discrete timeline; windows are half-open
`[start, upper)` pairs issued most-recent-first; the upper boundary
shrinks to each window's lower edge and the step grows geometrically by
`growth` after each round, capped at the original lower bound. The fuel
argument bounds the recursion; `time_split_windows` supplies enough fuel
for any positive step. -/
def timeSplitGo (fuel : Nat) (lower upper step growth : Nat) :
    List (Nat × Nat) :=
  match fuel with
  | 0 => []
  | fuel + 1 =>
      if upper ≤ lower then []
      else
        let start := max lower (upper - step)
        (start, upper) :: timeSplitGo fuel lower start (step * growth) growth

/-- The windows issued by the Time Split strategy over
`[lower, upper)` with initial step `step` and geometric growth factor
`growth`, when no window reaches the row limit. -/
def time_split_windows (lower upper step growth : Nat) :
    List (Nat × Nat) :=
  timeSplitGo (upper - lower) lower upper step growth

/-- The single-quote character, written by code point to keep part names
such as `(90,'2022-03-28')` expressible. -/
def quoteStr : String := String.mk [Char.ofNat 39]

/-- The part name `(90,'2022-03-28')`. -/
def part90_0328 : String := "(90," ++ quoteStr ++ "2022-03-28" ++ quoteStr ++ ")"

/-- The part name `(90,'2022-03-21')`. -/
def part90_0321 : String := "(90," ++ quoteStr ++ "2022-03-21" ++ quoteStr ++ ")"

/-- The part name `(30,'2022-03-28')`. -/
def part30_0328 : String := "(30," ++ quoteStr ++ "2022-03-28" ++ quoteStr ++ ")"

/-- Whether a character is an ASCII digit, by code point. -/
def isDigitChar (c : Char) : Bool := 48 ≤ c.toNat && c.toNat ≤ 57

/-- The natural number denoted by a list of ASCII digits. -/
def digitsToNat (l : List Char) : Nat :=
  l.foldl (fun acc c => acc * 10 + (c.toNat - 48)) 0

/-- The leading numeric key (retention days) of a part name such as
`(90,'2022-03-28')`. -/
def partRetention (s : String) : Nat :=
  digitsToNat ((s.data.drop 1).takeWhile isDigitChar)

/-- The quoted date of a part name such as `(90,'2022-03-28')`, as a
character list. -/
def partDate (s : String) : List Char :=
  ((s.data.dropWhile (fun c => c.toNat ≠ 39)).drop 1).takeWhile
    (fun c => c.toNat ≠ 39)

/-- Lexicographic strict ordering on character lists, by code point. -/
def charListLt : List Char → List Char → Bool
  | [], [] => false
  | [], _ :: _ => true
  | _ :: _, [] => false
  | c :: cs, d :: ds =>
      if c.toNat < d.toNat then true
      else if d.toNat < c.toNat then false
      else charListLt cs ds

/-- Strict descending comparison of parts by the composite key
(date, retention). -/
def partKeyGT (a b : String) : Bool :=
  charListLt (partDate b) (partDate a)
    || (decide (partDate a = partDate b) && partRetention b < partRetention a)

/-- Stable insertion into a list sorted descending by `partKeyGT`. -/
def insertPartDesc (x : String) : List String → List String
  | [] => [x]
  | y :: ys =>
      if partKeyGT y x then y :: insertPartDesc x ys else x :: y :: ys

/-- Stable insertion sort of parts, descending by (date, retention). -/
def sortPartsDesc : List String → List String
  | [] => []
  | x :: xs => insertPartDesc x (sortPartsDesc xs)

/-- Modelled from the spec: `_subdivide_parts` (`snuba/optimize.py` is not
part of the sources). Per the design notes: sort deterministically by a
composite key, then assign round-robin by bucket index in sorted order;
the composite key that reproduces the literal scenarios of
`tests/test_optimize.py` is (date descending, retention descending). -/
def subdivide_parts (parts : List String)
    (number_of_subdivisions : Nat) : List (List String) :=
  let sorted := sortPartsDesc parts
  (List.range number_of_subdivisions).map (fun i =>
    ((sorted.enum.filter
      (fun p => p.1 % number_of_subdivisions == i)).map Prod.snd))

/-- A query with no data source, no entity and no expressions: the state
right after `Query.__init__` with only the mandatory arguments. -/
def emptyQuery : Query := mkQuery [] none

/-- The bare column reference `x`. -/
def colX : Expression := Expression.column none none "x"

/-- The constant transformation function mapping every expression to the
literal `5`. -/
def constLiteralFive : Expression → Expression := fun _ => Expression.literal 5

/-- A query whose only expression is a `PREWHERE` on the bare column
`x`. -/
def prewhereQuery : Query := mkQuery [] none none none none (some colX)

/-- A query that selects the bare column `x` and also groups by it: the
same sub-expression occurs under two distinct roots. -/
def duplicateQuery : Query :=
  mkQuery [] none (some [⟨none, colX⟩]) none none none (some [colX])

/-- A query over a data source declaring only the column `a`, selecting
the undeclared bare column `undeclared`. -/
def undeclaredQuery : Query :=
  mkQuery [] (some ⟨{"a"}⟩)
    (some [⟨none, Expression.column none none "undeclared"⟩])

/- Helper lemmas on the iteration protocol. -/

/-- Every expression occurs in its own depth-first sequence. -/
theorem mem_iterate_self (e : Expression) : e ∈ e.iterate := by
  cases e <;> simp [Expression.iterate]

mutual
/-- The depth-first sequence is transitively closed: a sub-expression of a
yielded expression is itself yielded. -/
theorem iterate_trans : (b a : Expression) → a ∈ b.iterate →
    (c : Expression) → c ∈ a.iterate → c ∈ b.iterate
  | .column x y z, a, ha, c, hc => by
      simp [Expression.iterate] at ha
      subst ha; simpa [Expression.iterate] using hc
  | .literal v, a, ha, c, hc => by
      simp [Expression.iterate] at ha
      subst ha; simpa [Expression.iterate] using hc
  | .functionCall x n args, a, ha, c, hc => by
      simp [Expression.iterate] at ha
      rcases ha with ha | ha
      · subst ha; simpa [Expression.iterate] using hc
      · have := iterateList_trans args a ha c hc
        simp [Expression.iterate]
        exact Or.inr this
  | .subscriptableReference x cc kk, a, ha, c, hc => by
      simp [Expression.iterate] at ha
      rcases ha with ha | ha | ha
      · subst ha; simpa [Expression.iterate] using hc
      · have := iterate_trans cc a ha c hc
        simp [Expression.iterate]; tauto
      · have := iterate_trans kk a ha c hc
        simp [Expression.iterate]; tauto
  | .lambdaExp p body, a, ha, c, hc => by
      simp [Expression.iterate] at ha
      rcases ha with ha | ha
      · subst ha; simpa [Expression.iterate] using hc
      · have := iterate_trans body a ha c hc
        simp [Expression.iterate]; tauto

/-- List version of `iterate_trans`. -/
theorem iterateList_trans : (l : List Expression) → (a : Expression) →
    a ∈ Expression.iterateList l →
    (c : Expression) → c ∈ a.iterate → c ∈ Expression.iterateList l
  | [], a, ha, c, hc => by simp [Expression.iterateList] at ha
  | x :: xs, a, ha, c, hc => by
      simp [Expression.iterateList] at ha
      rcases ha with ha | ha
      · have := iterate_trans x a ha c hc
        simp [Expression.iterateList]; tauto
      · have := iterateList_trans xs a ha c hc
        simp [Expression.iterateList]; tauto
end

/-- Membership in the iteration of an optional expression. -/
theorem mem_optIterate (o : Option Expression) (c : Expression) :
    c ∈ Query.optIterate o ↔ ∃ e, o = some e ∧ c ∈ e.iterate := by
  cases o <;> simp [Query.optIterate]

/-- Membership in the accumulating fold of
`__get_all_ast_referenced_expressions`. -/
theorem mem_referenced_fold (l : List Expression) (p : Expression → Bool)
    (init : Finset Expression) (c : Expression) :
    c ∈ l.foldl (fun ret e => ret ∪ (e.iterate.filter p).toFinset) init ↔
      c ∈ init ∨ ∃ e ∈ l, c ∈ e.iterate ∧ p c = true := by
  induction l generalizing init with
  | nil => simp
  | cons x xs ih =>
      simp only [List.foldl_cons, ih, Finset.mem_union, List.mem_toFinset,
        List.mem_filter, List.mem_cons]
      constructor
      · rintro ((h | h) | ⟨e, he, hc, hp⟩)
        · exact Or.inl h
        · exact Or.inr ⟨x, Or.inl rfl, h.1, h.2⟩
        · exact Or.inr ⟨e, Or.inr he, hc, hp⟩
      · rintro (h | ⟨e, (rfl | he), hc, hp⟩)
        · exact Or.inl (Or.inl h)
        · exact Or.inl (Or.inr ⟨hc, hp⟩)
        · exact Or.inr ⟨e, he, hc, hp⟩

/-- `get_all_expressions` is closed under taking sub-expressions: every
sub-expression of a yielded expression is yielded. -/
theorem mem_get_all_expressions_trans (q : Query) (e : Expression)
    (he : e ∈ q.get_all_expressions) (c : Expression)
    (hc : c ∈ e.iterate) : c ∈ q.get_all_expressions := by
  simp only [Query.get_all_expressions, List.mem_append, List.mem_flatMap,
    List.mem_map, mem_optIterate] at he ⊢
  rcases he with ((((h | h) | h) | h) | h) | h
  · obtain ⟨root, hroot, he2⟩ := h
    exact Or.inl (Or.inl (Or.inl (Or.inl (Or.inl
      ⟨root, hroot, iterate_trans root e he2 c hc⟩))))
  · obtain ⟨e0, ho, he2⟩ := h
    exact Or.inl (Or.inl (Or.inl (Or.inl (Or.inr
      ⟨e0, ho, iterate_trans e0 e he2 c hc⟩))))
  · obtain ⟨e0, ho, he2⟩ := h
    exact Or.inl (Or.inl (Or.inl (Or.inr
      ⟨e0, ho, iterate_trans e0 e he2 c hc⟩)))
  · obtain ⟨root, hroot, he2⟩ := h
    exact Or.inl (Or.inl (Or.inr ⟨root, hroot, iterate_trans root e he2 c hc⟩))
  · obtain ⟨e0, ho, he2⟩ := h
    exact Or.inl (Or.inr ⟨e0, ho, iterate_trans e0 e he2 c hc⟩)
  · obtain ⟨root, hroot, he2⟩ := h
    exact Or.inr ⟨root, hroot, iterate_trans root e he2 c hc⟩

/-- Claim C8: a query constructed without a data source fails with
`UnboundDataSource` on `get_data_source()`; after `set_data_source(ds)`,
`get_data_source()` returns `ds` and does not fail. -/
theorem c8_data_source_binding :
    ∀ (q : Query),
      (q.dataSource = none →
        q.get_data_source = Except.error SnubaError.unboundDataSource)
      ∧ ∀ (ds : RelationalSource),
          (q.set_data_source ds).get_data_source = Except.ok ds := by
  intro q
  constructor
  · intro h
    unfold Query.get_data_source
    rw [h]
  · intro ds
    rfl

/-- Witness for C8: the freshly constructed `emptyQuery` has no data
source, and accessing it fails with `UnboundDataSource`. -/
theorem c8_data_source_binding_witness :
    emptyQuery.get_data_source = Except.error SnubaError.unboundDataSource
      ∧ (emptyQuery.set_data_source ⟨{"a"}⟩).get_data_source
          = Except.ok ⟨{"a"}⟩ :=
  ⟨(c8_data_source_binding emptyQuery).1 rfl,
   (c8_data_source_binding emptyQuery).2 ⟨{"a"}⟩⟩

/-- Claim C9: entity binding is single-assignment — `get_entity` before
any binding fails with `InvariantViolation`, a first `set_entity e`
succeeds and makes `get_entity` return `e`, and a second `set_entity`
fails with `InvariantViolation`. -/
theorem c9_entity_binding :
    ∀ (q : Query) (e e2 : Entity), q.entity = none →
      q.get_entity = Except.error SnubaError.invariantViolation
      ∧ ∃ q2, q.set_entity e = Except.ok q2
          ∧ q2.get_entity = Except.ok e
          ∧ q2.set_entity e2 = Except.error SnubaError.invariantViolation := by
  intro q e e2 h
  constructor
  · unfold Query.get_entity
    rw [h]
  · refine ⟨{ q with entity := some e }, ?_, rfl, rfl⟩
    unfold Query.set_entity
    rw [h]

/-- Witness for C9: binding entities on the freshly constructed
`emptyQuery`. -/
theorem c9_entity_binding_witness :
    emptyQuery.get_entity = Except.error SnubaError.invariantViolation
    ∧ ∃ q2, emptyQuery.set_entity ⟨"events"⟩ = Except.ok q2
        ∧ q2.get_entity = Except.ok ⟨"events"⟩
        ∧ q2.set_entity ⟨"transactions"⟩
            = Except.error SnubaError.invariantViolation :=
  c9_entity_binding emptyQuery ⟨"events"⟩ ⟨"transactions"⟩ rfl

/-- Claim C10 (frame effect): `transform_expressions` leaves every
observable field other than the six expression roots unchanged —
prewhere, limitby, sample, limit, offset, totals, granularity, final,
data source and entity all compare equal before and after. -/
theorem c10_transform_expressions_frame :
    ∀ (q : Query) (f : Expression → Expression),
      (q.transform_expressions f).get_prewhere_ast = q.get_prewhere_ast
      ∧ (q.transform_expressions f).get_limitby = q.get_limitby
      ∧ (q.transform_expressions f).get_sample = q.get_sample
      ∧ (q.transform_expressions f).get_limit = q.get_limit
      ∧ (q.transform_expressions f).get_offset = q.get_offset
      ∧ (q.transform_expressions f).has_totals = q.has_totals
      ∧ (q.transform_expressions f).get_granularity = q.get_granularity
      ∧ (q.transform_expressions f).get_final = q.get_final
      ∧ (q.transform_expressions f).get_data_source = q.get_data_source
      ∧ (q.transform_expressions f).get_entity = q.get_entity :=
  fun _ _ => ⟨rfl, rfl, rfl, rfl, rfl, rfl, rfl, rfl, rfl, rfl⟩

/-- Counterexample to C3 as stated: on a query whose only expression root
is a `PREWHERE` column, `transform_expressions` with the constant-literal
function does not replace the prewhere root with its transform. -/
theorem c3_prewhere_not_transformed :
    ¬ ((prewhereQuery.transform_expressions constLiteralFive).get_prewhere_ast
        = prewhereQuery.get_prewhere_ast.map
            (Expression.transform constLiteralFive)) := by
  decide

/-- Claim C3 (amended): `transform_expressions f` replaces the
selected-column expressions, array join, condition, group-by, having and
order-by roots with the result of `Expression.transform f`, and leaves
`prewhere` unchanged. -/
theorem c3_transform_expressions :
    ∀ (q : Query) (f : Expression → Expression),
      (q.transform_expressions f).get_selected_columns_from_ast
          = q.get_selected_columns_from_ast.map
              (fun s => ⟨s.name, s.expression.transform f⟩)
      ∧ (q.transform_expressions f).get_arrayjoin_from_ast
          = q.get_arrayjoin_from_ast.map (Expression.transform f)
      ∧ (q.transform_expressions f).get_condition_from_ast
          = q.get_condition_from_ast.map (Expression.transform f)
      ∧ (q.transform_expressions f).get_groupby_from_ast
          = q.get_groupby_from_ast.map (Expression.transform f)
      ∧ (q.transform_expressions f).get_having_from_ast
          = q.get_having_from_ast.map (Expression.transform f)
      ∧ (q.transform_expressions f).get_orderby_from_ast
          = q.get_orderby_from_ast.map
              (fun o => ⟨o.direction, o.expression.transform f⟩)
      ∧ (q.transform_expressions f).get_prewhere_ast = q.get_prewhere_ast := by
  intro q f
  refine ⟨?_, ?_, ?_, ?_, ?_, ?_, rfl⟩ <;>
    simp [Query.transform_expressions, Query.get_selected_columns_from_ast,
      Query.get_arrayjoin_from_ast, Query.get_condition_from_ast,
      Query.get_groupby_from_ast, Query.get_having_from_ast,
      Query.get_orderby_from_ast]

/-- Claim C1: for a query with a bound data source, `validate_aliases()`
returns true iff the referenced symbols are a subset of the declared
symbols unioned with the data-source column names; and the concrete query
referencing the undeclared bare column `undeclared` validates to false. -/
theorem c1_validate_aliases :
    ∀ (q : Query) (ds : RelationalSource), q.dataSource = some ds →
      ((q.validate_aliases = Except.ok true) ↔
        q.referencedSymbols ⊆ q.declaredSymbols ∪ ds.columns)
      ∧ undeclaredQuery.validate_aliases = Except.ok false := by
  intro q ds h
  constructor
  · unfold Query.validate_aliases
    have hds : q.get_data_source = Except.ok ds := by
      unfold Query.get_data_source
      rw [h]
    rw [hds]
    simp only [bind, Except.bind, pure, Except.pure, Except.ok.injEq,
      Query.referencedSymbols, Query.declaredSymbols,
      decide_eq_true_eq, ← Finset.sdiff_eq_empty_iff_subset]
  · rfl

/-- Witness for C1: `undeclaredQuery` has its data source bound, and
applying the theorem to it both yields the subset characterisation and
re-derives the concrete false validation. -/
theorem c1_validate_aliases_witness :
    undeclaredQuery.validate_aliases = Except.ok false :=
  (c1_validate_aliases undeclaredQuery ⟨{"a"}⟩ rfl).2

/-- Claim C2: during alias validation, a `Column` whose (truthy) alias
equals its own qualified name only references that name and declares
nothing; a `Column` whose alias differs both references the qualified name
and declares the alias; a non-`Column` expression with an alias only
declares it. -/
theorem c2_alias_declaration :
    ∀ (d r : Finset String) (a : String) (t : Option String) (n fname : String)
      (args : List Expression), a ≠ "" →
      (a = Query.qualifiedColName t n →
          Query.processSymbols (d, r) (Expression.column (some a) t n)
            = (d, insert (Query.qualifiedColName t n) r))
      ∧ (a ≠ Query.qualifiedColName t n →
          Query.processSymbols (d, r) (Expression.column (some a) t n)
            = (insert a d, insert (Query.qualifiedColName t n) r))
      ∧ Query.processSymbols (d, r) (Expression.functionCall (some a) fname args)
          = (insert a d, r) := by
  intro d r a t n fname args ha
  have htruthy : optTruthy (some a) = true := by
    simp [optTruthy, Bool.eq_false_iff, String.isEmpty_iff, ha]
  refine ⟨?_, ?_, ?_⟩
  · intro heq
    subst heq
    simp [Query.processSymbols, Expression.getAlias, htruthy]
  · intro hne
    simp [Query.processSymbols, Expression.getAlias, htruthy, hne]
  · simp [Query.processSymbols, Expression.getAlias, htruthy]

/-- Witness for C2: `SELECT a AS a` only references `a`; `SELECT a AS B`
references `a` and declares `B`; `f(...) AS A` only declares `A`. -/
theorem c2_alias_declaration_witness :
    Query.processSymbols (∅, ∅) (Expression.column (some "a") none "a")
        = (∅, insert "a" ∅)
    ∧ Query.processSymbols (∅, ∅) (Expression.column (some "B") none "a")
        = (insert "B" ∅, insert "a" ∅)
    ∧ Query.processSymbols (∅, ∅) (Expression.functionCall (some "A") "f" [])
        = (insert "A" ∅, ∅) :=
  ⟨(c2_alias_declaration ∅ ∅ "a" none "a" "f" [] (by decide)).1 (by decide),
   (c2_alias_declaration ∅ ∅ "B" none "a" "f" [] (by decide)).2.1 (by decide),
   (c2_alias_declaration ∅ ∅ "A" none "a" "f" [] (by decide)).2.2⟩

/-- Claim C4: `get_all_expressions()` yields the query's expressions in
the fixed order select list, array join, condition, group by, having,
order by, suppressing no duplicates (on `duplicateQuery` the column under
two roots is yielded twice), while the referenced-columns and
referenced-subscripts accessors deduplicate into a true set whose members
are exactly the yielded expressions of the matching kind. -/
theorem c4_get_all_expressions :
    ∀ (q : Query),
      q.get_all_expressions =
        (q.get_selected_columns_from_ast.map (fun s => s.expression)).flatMap
            Expression.iterate
          ++ Query.optIterate q.get_arrayjoin_from_ast
          ++ Query.optIterate q.get_condition_from_ast
          ++ q.get_groupby_from_ast.flatMap Expression.iterate
          ++ Query.optIterate q.get_having_from_ast
          ++ (q.get_orderby_from_ast.map (fun o => o.expression)).flatMap
              Expression.iterate
      ∧ (∀ c, c ∈ q.get_all_ast_referenced_columns ↔
          (c ∈ q.get_all_expressions ∧ c.isColumn = true))
      ∧ (∀ c, c ∈ q.get_all_ast_referenced_subscripts ↔
          (c ∈ q.get_all_expressions ∧ c.isSubscript = true))
      ∧ duplicateQuery.get_all_expressions = [colX, colX] := by
  intro q
  refine ⟨rfl, ?_, ?_, rfl⟩
  all_goals
    intro c
    simp only [Query.get_all_ast_referenced_columns,
      Query.get_all_ast_referenced_subscripts,
      Query.get_all_ast_referenced_expressions]
    rw [mem_referenced_fold]
    simp only [Finset.not_mem_empty, false_or]
    constructor
    · rintro ⟨e, he, hc, hp⟩
      exact ⟨mem_get_all_expressions_trans q e he c hc, hp⟩
    · rintro ⟨hc, hp⟩
      exact ⟨c, hc, mem_iterate_self c, hp⟩

/-- Counterexample to C5 as stated: with the interval
`[2019-09-18T10:00, 2019-09-19T12:00)` — minutes 600 to 2160 from
2019-09-18T00:00 — a 1-hour initial step that doubles after each round
does not produce the three windows the claim lists (doubling gives
`[09:00,11:00)` as the second window, not `[01:00,11:00)`). -/
theorem c5_time_split_doubling_counterexample :
    ¬ ((time_split_windows 600 2160 60 2).take 3 =
        [(2100, 2160), (1500, 2100), (600, 1500)]) := by
  decide

/-- Claim C5 (amended): with a 1-hour initial step growing tenfold after
each round, the Time Split windows over minutes `[600, 2160)` (that is
`[2019-09-18T10:00, 2019-09-19T12:00)`) are exactly
`[2019-09-19T11:00,12:00)`, `[01:00,11:00)`, `[18T10:00,19T01:00)`,
most-recent-first; they are contiguous, non-overlapping half-open
intervals whose union is exactly the original interval. -/
theorem c5_time_split_windows :
    time_split_windows 600 2160 60 10
        = [(2100, 2160), (1500, 2100), (600, 1500)]
    ∧ List.Chain' (fun w v => v.2 = w.1) (time_split_windows 600 2160 60 10)
    ∧ List.Pairwise (fun w v => v.2 ≤ w.1) (time_split_windows 600 2160 60 10)
    ∧ ∀ t : Nat, (600 ≤ t ∧ t < 2160) ↔
        ∃ w ∈ time_split_windows 600 2160 60 10, w.1 ≤ t ∧ t < w.2 := by
  have h : time_split_windows 600 2160 60 10
      = [(2100, 2160), (1500, 2100), (600, 1500)] := by decide
  refine ⟨h, ?_, ?_, ?_⟩
  · rw [h]; simp [List.chain'_cons]
  · rw [h]
    refine List.Pairwise.cons ?_ (List.Pairwise.cons ?_ ?_) <;> simp
  · intro t
    rw [h]
    simp only [List.mem_cons, List.not_mem_nil, or_false]
    constructor
    · intro ht
      by_cases h1 : 2100 ≤ t
      · exact ⟨(2100, 2160), Or.inl rfl, h1, ht.2⟩
      · by_cases h2 : 1500 ≤ t
        · exact ⟨(1500, 2100), Or.inr (Or.inl rfl), h2, by omega⟩
        · exact ⟨(600, 1500), Or.inr (Or.inr rfl), ht.1, by omega⟩
    · rintro ⟨w, (rfl | rfl | rfl), hw⟩ <;> omega

/-- Claim C7: subdividing
`["(90,'2022-03-28')", "(90,'2022-03-21')", "(30,'2022-03-28')"]` into 2
buckets puts exactly the two retention-90 parts into bucket 1 and the one
retention-30 part into bucket 2, preserving encounter order within each
bucket. -/
theorem c7_subdivide_parts :
    subdivide_parts [part90_0328, part90_0321, part30_0328] 2
        = [[part90_0328, part90_0321], [part30_0328]]
    ∧ partRetention part90_0328 = 90
    ∧ partRetention part90_0321 = 90
    ∧ partRetention part30_0328 = 30 := by
  decide

/-- The column-split strategy of the events dataset tests:
identifier `event_id`, project scope `project_id`, time `timestamp`,
with a configured minimum of 4 selected columns. -/
def eventStrategy : ColumnSplitQueryStrategy :=
  ⟨"event_id", "project_id", "timestamp", 4⟩

/-- The 7-column query of `test_col_split_conditions`, with the time-range
and project conditions and a limit of 10. -/
def baseSplitQuery : SplitQuery :=
  { selected_columns := ["event_id", "level", "logger", "server_name",
      "transaction", "timestamp", "project_id"]
    conditions := [("timestamp", CondOp.gte, ["2019-09-19T10:00:00"]),
      ("timestamp", CondOp.lt, ["2019-09-19T12:00:00"]),
      ("project_id", CondOp.isIn, ["1", "2", "3"])]
    groupby := []
    order_by := []
    limitby := none
    limit := some 10 }

/-- `baseSplitQuery` with a GROUP BY on `timestamp`. -/
def groupbySplitQuery : SplitQuery :=
  { baseSplitQuery with groupby := ["timestamp"] }

/-- `baseSplitQuery` with an `=` condition on `event_id`. -/
def eqSplitQuery : SplitQuery :=
  { baseSplitQuery with
    conditions := baseSplitQuery.conditions ++ [("event_id", CondOp.eq, ["a"])] }

/-- `baseSplitQuery` with an `IN` condition on `event_id`. -/
def inSplitQuery : SplitQuery :=
  { baseSplitQuery with
    conditions := baseSplitQuery.conditions
      ++ [("event_id", CondOp.isIn, ["a", "b"])] }

/-- `baseSplitQuery` reduced to 4 selected columns. -/
def narrowSplitQuery : SplitQuery :=
  { baseSplitQuery with
    selected_columns := ["event_id", "level", "logger", "server_name"] }

/-- `baseSplitQuery` with a `>` condition on `event_id`. -/
def gtSplitQuery : SplitQuery :=
  { baseSplitQuery with
    conditions := baseSplitQuery.conditions ++ [("event_id", CondOp.gt, ["a"])] }

/-- The stub runner of `test_col_split_conditions`: always returns one
row binding the identifier, project and time columns. -/
def testRunner : SplitQuery → ResultSet :=
  fun _ => [[("event_id", "asd123"), ("project_id", "123"),
    ("timestamp", "2019-10-01 22:33:42")]]

/-- Claim C6: the column split declines on an `=` or `IN` condition
against the identifier column, on a GROUP BY, and on too few selected
columns; it proceeds (returns a result) when all preconditions hold, in
particular when the only identifier-column condition is relational. -/
theorem c6_column_split_preconditions :
    ∀ (s : ColumnSplitQueryStrategy) (q : SplitQuery)
      (runner : SplitQuery → ResultSet),
      ((∃ v, (s.id_column, CondOp.eq, v) ∈ q.conditions
          ∨ (s.id_column, CondOp.isIn, v) ∈ q.conditions) →
        s.execute q runner = none)
      ∧ (q.groupby ≠ [] → s.execute q runner = none)
      ∧ (q.selected_columns.length ≤ s.min_columns →
          s.execute q runner = none)
      ∧ ((s.min_columns < q.selected_columns.length
          ∧ s.id_column ∈ q.selected_columns
          ∧ s.project_column ∈ q.selected_columns
          ∧ q.groupby = []
          ∧ ∀ c ∈ q.conditions, c.1 = s.id_column →
              c.2.1 ≠ CondOp.eq ∧ c.2.1 ≠ CondOp.isIn) →
        (s.execute q runner).isSome = true) := by
  intro s q runner
  refine ⟨?_, ?_, ?_, ?_⟩
  · rintro ⟨v, hv⟩
    have hany : q.conditions.any (fun c =>
        c.1 == s.id_column && (c.2.1 == CondOp.eq || c.2.1 == CondOp.isIn))
          = true := by
      rw [List.any_eq_true]
      cases hv with
      | inl hmem => exact ⟨(s.id_column, CondOp.eq, v), hmem, by simp⟩
      | inr hmem => exact ⟨(s.id_column, CondOp.isIn, v), hmem, by simp⟩
    simp [ColumnSplitQueryStrategy.execute, hany, ite_self]
  · intro h
    have hne : q.groupby.isEmpty = false := by
      cases hq : q.groupby with
      | nil => exact absurd hq h
      | cons a l => rfl
    simp [ColumnSplitQueryStrategy.execute, hne, ite_self]
  · intro h
    have hlt : ¬(s.min_columns < q.selected_columns.length) := by omega
    simp [ColumnSplitQueryStrategy.execute, hlt]
  · rintro ⟨hlen, hid, hproj, hgroup, hconds⟩
    have h3 : q.conditions.any (fun c =>
        c.1 == s.id_column && (c.2.1 == CondOp.eq || c.2.1 == CondOp.isIn))
          = false := by
      rw [List.any_eq_false]
      intro c hc
      by_cases hc1 : c.1 = s.id_column
      · obtain ⟨hne, hni⟩ := hconds c hc hc1
        simp [hc1, hne, hni]
      · simp [hc1]
    simp only [ColumnSplitQueryStrategy.execute, h3, hgroup, hlen]
    simp [hid, hproj, apply_ite Option.isSome]

/-- Witness for C6: on the concrete 7-column events query, the strategy
declines with an `=` on `event_id`, with an `IN` on `event_id`, with a
GROUP BY, and with only 4 selected columns; it proceeds with a `>` on
`event_id`. -/
theorem c6_column_split_preconditions_witness :
    eventStrategy.execute eqSplitQuery testRunner = none
    ∧ eventStrategy.execute inSplitQuery testRunner = none
    ∧ eventStrategy.execute groupbySplitQuery testRunner = none
    ∧ eventStrategy.execute narrowSplitQuery testRunner = none
    ∧ (eventStrategy.execute gtSplitQuery testRunner).isSome = true :=
  ⟨(c6_column_split_preconditions eventStrategy eqSplitQuery testRunner).1
      ⟨["a"], Or.inl (by decide)⟩,
   (c6_column_split_preconditions eventStrategy inSplitQuery testRunner).1
      ⟨["a", "b"], Or.inr (by decide)⟩,
   (c6_column_split_preconditions eventStrategy groupbySplitQuery
      testRunner).2.1 (by decide),
   (c6_column_split_preconditions eventStrategy narrowSplitQuery
      testRunner).2.2.1 (by decide),
   (c6_column_split_preconditions eventStrategy gtSplitQuery
      testRunner).2.2.2 (by decide)⟩
